import Mathlib

/-!
# LogServ: verification of the reverse log scanner, search engine,
# continuation codec, aggregator merge and path guard

Shallow embedding of the core of the LogServ daemon (`src/scanner.ts`,
`src/util.ts`, `src/normal.ts`, `src/aggregator.ts`).  File contents are
byte lists (`List Nat`, each element < 256 in practice); machine numbers
are `Nat`/`Int`; JSON values are the inductive `JVal`; fallible code
returns `Except String`.  Loops whose termination depends on the data
(the backwards line scan) take an explicit fuel argument; the fuel chosen
at each call site is large enough for every terminating run of the source
loop, and results carry a `completed` flag so that fuel exhaustion is
observable rather than silent.
-/

namespace LogServ

/-- `MAX_RESULT_ENTRY_LENGTH` from `src/scanner.ts`. -/
def MAX_RESULT_ENTRY_LENGTH : Nat := 2048

/-- `CHUNK_SIZE = 64 * 1024` from `src/scanner.ts`. -/
def CHUNK_SIZE : Nat := 64 * 1024

/-- `GLOBAL_MAX_RESULTS` from `src/util.ts`. -/
def GLOBAL_MAX_RESULTS : Nat := 100

/-- `MAX_SEARCH_TEXT_LENGTH` from `src/util.ts`. -/
def MAX_SEARCH_TEXT_LENGTH : Nat := 200

/-- A `FileChunk` from `src/scanner.ts`: a byte array plus the offset into
the file where the bytes were sourced.  Lines emitted by the scanner are
values of this same class. -/
structure FileChunk where
  offset : Nat
  bytes : List Nat
  deriving Repr, DecidableEq

/-- `FileChunk.subChunk(start, end)`: `bytes.subarray(start, end)` with the
offset advanced by `start`.  JS `subarray` clamps out-of-range indices and
yields the empty array when `start ≥ end`, which `(take e).drop s` mirrors. -/
def FileChunk.subChunk (c : FileChunk) (s e : Nat) : FileChunk :=
  ⟨c.offset + s, (c.bytes.take e).drop s⟩

/-- `FileChunk.concat(successor)`: same offset, concatenated bytes. -/
def FileChunk.concat (c successor : FileChunk) : FileChunk :=
  ⟨c.offset, c.bytes ++ successor.bytes⟩

/-- `FileChunk.prepend(predecessor)`: builds and *returns* a new chunk with
the predecessor's offset and the concatenated bytes.  Note that it does not
mutate `this`; the call site in `linesReverse` discards the returned value. -/
def FileChunk.prepend (c predecessor : FileChunk) : FileChunk :=
  ⟨predecessor.offset, predecessor.bytes ++ c.bytes⟩

/-- Helper for `lastIndexOf`: one forward pass recording the last index
`i ≤ limit` at which `t` occurs.  `i` is the index of the list head. -/
def lastIdxLeAux (t limit : Nat) : List Nat → Nat → Option Nat → Option Nat
  | [], _, best => best
  | b :: bs, i, best =>
      lastIdxLeAux t limit bs (i + 1) (if b = t ∧ i ≤ limit then some i else best)

/-- `TypedArray.prototype.lastIndexOf(t, fromIdx)` per ECMAScript: the scan
starts at `k = min fromIdx (len-1)` when `fromIdx ≥ 0`, at `k = len + fromIdx`
when `fromIdx < 0`, and returns the largest index `≤ k` holding `t`, or `-1`. -/
def lastIndexOf (bs : List Nat) (t : Nat) (fromIdx : Int) : Int :=
  let len : Int := bs.length
  let k : Int := if 0 ≤ fromIdx then min fromIdx (len - 1) else len + fromIdx
  if k < 0 then -1
  else
    match lastIdxLeAux t k.toNat bs 0 none with
    | some i => (i : Int)
    | none => -1

/-- Exit status of the inner `while (true)` loop of `linesReverse`
(`src/scanner.ts`): either the loop reached its `break` with the given
pending partial line, or the fuel ran out (the source loop did not
terminate within the allotted iterations). -/
inductive LoopExit where
  | finished (pendingLine : Option FileChunk)
  | fuelOut
  deriving Repr, DecidableEq

/-- The inner `while (true)` loop of `linesReverse` over one chunk.
State: the current search window end `lineEnding` and the pending
`partialLine`.  Returns the lines yielded while scanning this chunk
(in emission order) together with the exit status.

Faithful to the source, including:
* the wrap-around of `lastIndexOf(10, lineEnding - 1)` when `lineEnding = 0`;
* the call `partialLine.prepend(chunk.subChunk(0, lineEnding))` whose
  result the source discards (`prepend` returns a fresh chunk). -/
def lineLoop (chunk : FileChunk) : Nat → Nat → Option FileChunk → List FileChunk × LoopExit
  | 0, _, _ => ([], .fuelOut)
  | fuel + 1, lineEnding, pendingLine =>
      let prevLineEnding := lastIndexOf chunk.bytes 10 ((lineEnding : Int) - 1)
      if prevLineEnding = -1 then
        match pendingLine with
        | none => ([], .finished (some (chunk.subChunk 0 lineEnding)))
        | some pl =>
            if lineEnding > MAX_RESULT_ENTRY_LENGTH then
              ([], .finished (some (chunk.subChunk 0 MAX_RESULT_ENTRY_LENGTH)))
            else
              let _ := pl.prepend (chunk.subChunk 0 lineEnding)
              let pl :=
                if pl.bytes.length > MAX_RESULT_ENTRY_LENGTH then
                  pl.subChunk 0 MAX_RESULT_ENTRY_LENGTH
                else pl
              ([], .finished (some pl))
      else
        let lineStart := (prevLineEnding + 1).toNat
        let line := chunk.subChunk lineStart lineEnding
        let line :=
          match pendingLine with
          | some pl => line.concat pl
          | none => line
        let line :=
          if line.bytes.length > MAX_RESULT_ENTRY_LENGTH then
            line.subChunk 0 MAX_RESULT_ENTRY_LENGTH
          else line
        let (rest, exit) := lineLoop chunk fuel prevLineEnding.toNat none
        (line :: rest, exit)

/-- Result of a full reverse scan: the lines in emission order (newest
first) and whether every chunk loop terminated (if not, the source
generator would keep yielding forever and the trailing partial is never
reached). -/
structure ScanResult where
  lines : List FileChunk
  completed : Bool
  deriving Repr, DecidableEq

/-- The chunk-consuming skeleton of `linesReverse`: run the inner loop on
each chunk in order, threading the partial line, and after the last chunk
yield any remaining partial.  Fuel `length + 2` bounds every terminating
run of the inner loop (the window end strictly decreases except in the
wrap-around case, which never breaks out). -/
def linesFromChunks : List FileChunk → Option FileChunk → ScanResult
  | [], pendingLine =>
      { lines := match pendingLine with | some pl => [pl] | none => []
        completed := true }
  | c :: rest, pendingLine =>
      match lineLoop c (c.bytes.length + 2) c.bytes.length pendingLine with
      | (ls, .finished pl) =>
          let r := linesFromChunks rest pl
          ⟨ls ++ r.lines, r.completed⟩
      | (ls, .fuelOut) => ⟨ls, false⟩

/-- `readChunk(file, start, size)` from `src/scanner.ts`: reads exactly the
bytes `[start, start+size)`.  The read-retry loop of the source always
succeeds because `chunksReverse` only requests ranges inside the file. -/
def readChunk (file : List Nat) (start size : Nat) : FileChunk :=
  ⟨start, (file.drop start).take size⟩

/-- The chunk loop of `chunksReverse`: `while (end > 0)` yield
`[max(0, end - CHUNK_SIZE), end)` and continue from the start.  The fuel is
instantiated with the initial `end`, which suffices since `end` decreases
by at least 1 each round. -/
def chunksFrom (file : List Nat) : Nat → Nat → List FileChunk
  | 0, _ => []
  | fuel + 1, e =>
      if e = 0 then []
      else
        let s := e - CHUNK_SIZE
        readChunk file s (e - s) :: chunksFrom file fuel s

/-- `chunksReverse(filename, startingOffset)` from `src/scanner.ts`:
throws `Invalid Offset` when `startingOffset` is truthy (a nonzero number)
and exceeds the file size; otherwise chunks from
`end = startingOffset ?? size` down to 0.  A non-positive `end` yields no
chunks (the `while (end > 0)` loop does not run). -/
def chunksReverse (file : List Nat) (startingOffset : Option Int) :
    Except String (List FileChunk) :=
  let size : Int := file.length
  match startingOffset with
  | some v =>
      if v ≠ 0 ∧ v > size then .error "Invalid Offset"
      else .ok (chunksFrom file v.toNat v.toNat)
  | none => .ok (chunksFrom file file.length file.length)

/-- `linesReverse(filename, startingOffset)` from `src/scanner.ts`. -/
def linesReverse (file : List Nat) (startingOffset : Option Int) :
    Except String ScanResult :=
  (chunksReverse file startingOffset).map fun chunks =>
    linesFromChunks chunks none

/-! ## JSON values

Continuation-token payloads and the `query` field travel as JSON.  JSON
numbers are modelled as rationals (every JSON numeral denotes one);
JSON strings as Lean strings (the flows under study are ASCII). -/

/-- A JSON value as produced by `JSON.parse`. -/
inductive JVal where
  | jnull
  | jbool (b : Bool)
  | jnum (q : ℚ)
  | jstr (s : String)
  | jarr (elems : List JVal)
  | jobj (fields : List (String × JVal))

/-- JS truthiness of a JSON value: `null`, `false`, `0` and `""` are falsy;
arrays and objects are always truthy. -/
def jTruthy : JVal → Bool
  | .jnull => false
  | .jbool b => b
  | .jnum q => q ≠ 0
  | .jstr s => s ≠ ""
  | .jarr _ => true
  | .jobj _ => true

/-- JS `typeof` on a JSON value; note `typeof null` and `typeof []` are
both `"object"`. -/
def jTypeof : JVal → String
  | .jnull => "object"
  | .jbool _ => "boolean"
  | .jnum _ => "number"
  | .jstr _ => "string"
  | .jarr _ => "object"
  | .jobj _ => "object"

/-- `Number.isInteger` on a JSON value: a number with denominator 1. -/
def jIsInteger : JVal → Bool
  | .jnum q => q.den = 1
  | _ => false

/-- JS property access `v[k]` on a JSON value: field lookup on objects,
`undefined` (here `none`) on everything else. -/
def jField (v : JVal) (k : String) : Option JVal :=
  match v with
  | .jobj fields => fields.lookup k
  | _ => none

/-! ## Search options and the engine (`searchLog`) -/

/-- The UTF-8 bytes of a string (used to relate JS strings to the byte
lines the scanner produces). -/
def strBytes (s : String) : List Nat :=
  s.toUTF8.toList.map (fun b => b.toNat)

/-- `SearchOptions` as the handler builds it: `none` models a JS property
that is absent/`undefined`.  On the continuation path `query` is whatever
JSON value the token carried (possibly `null`), hence `Option JVal`. -/
structure SearchOptionsM where
  maxResults : Option Int := none
  query : Option JVal := none
  resumeFrom : Option Int := none

/-- `opts.query?.text` followed by the use of the result as the search
needle: `undefined`/`null` queries yield no needle, an object with a
string `text` field yields that text. -/
def searchTextOf (query : Option JVal) : Option String :=
  match query with
  | none => none
  | some .jnull => none
  | some v =>
      match jField v "text" with
      | some (.jstr s) => some s
      | _ => none

/-- `a.isPrefixOf`-style check on byte lists, written out. -/
def listLeads : List Nat → List Nat → Bool
  | [], _ => true
  | _ :: _, [] => false
  | p :: ps, b :: bs => p = b && listLeads ps bs

/-- Byte-level substring containment, modelling `line.includes(searchText)`
on the UTF-8 bytes of the decoded line. -/
def containsSeq (needle : List Nat) : List Nat → Bool
  | [] => listLeads needle []
  | b :: bs => listLeads needle (b :: bs) || containsSeq needle bs

/-- `!searchText || line.includes(searchText)` from `searchLog`. -/
def matchesQuery (searchText : Option String) (line : List Nat) : Bool :=
  match searchText with
  | none => true
  | some t => t = "" || containsSeq (strBytes t) line

/-- Result of `searchLog`: the matched entries (each the bytes of one
line) and `earliestOffset` (`none` models the JS `undefined` it starts
as). -/
structure SearchResult where
  entries : List (List Nat)
  resumeFrom : Option Nat
  deriving Repr, DecidableEq

/-- The `for await` loop of `searchLog`: record each line's offset into
`earliestOffset`, skip empty lines, filter by the query, stop as soon as
`entries.length === maxResults`.  The final component tells whether the
loop exited via `break`. -/
def searchLoop (searchText : Option String) (maxResults : Int) :
    List FileChunk → List (List Nat) → Option Nat →
    List (List Nat) × Option Nat × Bool
  | [], entries, earliestOffset => (entries, earliestOffset, false)
  | l :: rest, entries, _ =>
      let earliestOffset := some l.offset
      if l.bytes = [] then
        searchLoop searchText maxResults rest entries earliestOffset
      else if matchesQuery searchText l.bytes then
        let entries := entries ++ [l.bytes]
        if (entries.length : Int) = maxResults then (entries, earliestOffset, true)
        else searchLoop searchText maxResults rest entries earliestOffset
      else searchLoop searchText maxResults rest entries earliestOffset

/-- `searchLog(filename, options)` from `src/scanner.ts`.  The defaulting
`{maxResults: 100, ...options}` yields 100 only when the `maxResults`
property is absent.  When the scanner diverges and the entry loop never
breaks, the source never returns; that case surfaces here as an error. -/
def searchLog (file : List Nat) (options : SearchOptionsM) :
    Except String SearchResult := do
  let maxResults := options.maxResults.getD 100
  let searchText := searchTextOf options.query
  let startingOffset := options.resumeFrom
  let scan ← linesReverse file startingOffset
  let (entries, earliestOffset, broke) :=
    searchLoop searchText maxResults scan.lines [] none
  if broke ∨ scan.completed then
    pure ⟨entries, earliestOffset⟩
  else
    .error "searchLog does not terminate"

/-! ## Validation and normalization (`src/util.ts`) -/

/-- `options.query.text.length > MAX_SEARCH_TEXT_LENGTH` evaluated with JS
semantics: a missing or `null` `text` raises a `TypeError`, a string or
array compares its length, any other value has an `undefined` `length`
property and the comparison is false. -/
def jsTextLengthGt (text : Option JVal) (n : Nat) : Except String Bool :=
  match text with
  | none => .error "TypeError"
  | some .jnull => .error "TypeError"
  | some (.jstr s) => .ok (decide (s.length > n))
  | some (.jarr l) => .ok (decide (l.length > n))
  | some _ => .ok false

/-- The `maxResults` normalization of `validateAndNormalizeSearchOptions`
(`src/util.ts`): `if (options.maxResults) options.maxResults =
Math.min(options.maxResults, GLOBAL_MAX_RESULTS)` followed by
`options.maxResults ??= GLOBAL_MAX_RESULTS`.  Note both steps leave a
present value `0` untouched: the first because `0` is falsy, the second
because `0` is not nullish. -/
def normalizeMaxResults (options : SearchOptionsM) : SearchOptionsM :=
  let maxResults :=
    match options.maxResults with
    | some v => if v ≠ 0 then some (min v (GLOBAL_MAX_RESULTS : Int)) else some v
    | none => none
  { options with maxResults := some (maxResults.getD (GLOBAL_MAX_RESULTS : Int)) }

/-- `validateAndNormalizeSearchOptions` from `src/util.ts`: check the
query text length when a truthy query is present (a thrown error aborts
before the `maxResults` mutation), then cap and default `maxResults`.
The source mutates `options` in place; the model returns the updated
record. -/
def validateAndNormalizeSearchOptions (options : SearchOptionsM) :
    Except String SearchOptionsM :=
  match options.query with
  | some q =>
      if jTruthy q then
        match jsTextLengthGt (jField q "text") MAX_SEARCH_TEXT_LENGTH with
        | .error e => .error e
        | .ok true => .error "Search text too long."
        | .ok false => .ok (normalizeMaxResults options)
      else .ok (normalizeMaxResults options)
  | none => .ok (normalizeMaxResults options)

/-! ## Continuation codec (`src/normal.ts`)

Tokens are base64 of `JSON.stringify` of the payload; base64 and JSON
text encoding form a bijection on payloads (any byte-level corruption
makes `decodeBase64`/`JSON.parse` throw, which the handler catches), so
the codec is modelled at the payload (`JVal`) level. -/

/-- The decoded fields of a local continuation token. -/
structure DecodedToken where
  resumeFrom : Int
  maxResults : Int
  query : JVal

/-- `encodeContinuationToken(resumeFrom, maxResults, query)`:
`JSON.stringify([resumeFrom, maxResults, query])` turns an `undefined`
element into `null`. -/
def encodeContinuationToken (resumeFrom : Int) (maxResults : Option Int)
    (query : Option JVal) : JVal :=
  .jarr [.jnum (resumeFrom : ℚ),
         (match maxResults with | some m => .jnum (m : ℚ) | none => .jnull),
         query.getD .jnull]

/-- `decodeContinuationToken` from `src/normal.ts`, applied to the parsed
payload. -/
def decodeContinuationToken (v : JVal) : Except String DecodedToken :=
  match v with
  | .jarr l =>
      match l with
      | [a, b, c] =>
          match a with
          | .jnum qa =>
              if qa.den = 1 then
                match b with
                | .jnum qb =>
                    if qb.den = 1 then
                      if jTruthy c ∧ jTypeof c ≠ "object" then .error "bad search"
                      else .ok ⟨qa.num, qb.num, c⟩
                    else .error "bad limit"
                | _ => .error "bad limit"
              else .error "bad pointer"
          | _ => .error "bad pointer"
      | _ => .error "must be triple"
  | _ => .error "must be array"

/-- The `SearchOptions` object built from a decoded token: all three
properties are assigned. -/
def DecodedToken.toOptions (d : DecodedToken) : SearchOptionsM :=
  ⟨some d.maxResults, some d.query, some d.resumeFrom⟩

/-- The continuation branch of `searchLogHandler` (`src/normal.ts`) after
the filename has been resolved: decode the token (a failure becomes the
400 `Invalid token.`), normalize, run the engine, and build the body,
attaching `cont` only when `searchResults.resumeFrom` is truthy (the
spread `...(searchResults.resumeFrom && {cont})` drops it for `0` and
`undefined`). -/
def searchLogHandlerCont (file : List Nat) (payload : JVal) :
    Except String (List (List Nat) × Option JVal) := do
  let d ←
    match decodeContinuationToken payload with
    | .ok d => pure d
    | .error _ => .error "Invalid token."
  let options ← d.toOptions |> validateAndNormalizeSearchOptions
  let r ← searchLog file options
  let cont :=
    match r.resumeFrom with
    | some v =>
        if v ≠ 0 then
          some (encodeContinuationToken (v : Int) options.maxResults options.query)
        else none
    | none => none
  pure (r.entries, cont)

/-! ## Aggregator (`src/aggregator.ts`) -/

/-- A successful peer outcome as `querySecondary` returns it: the host,
the entries already remapped to `{host, entry}` pairs, and the peer's own
continuation token if its body carried one. -/
structure SecondaryResultM where
  host : String
  entries : List (String × List Nat)
  cont : Option String

/-- The value `querySecondary` resolves to: a `SecondaryResult` or a
`SecondaryQueryError {host, error}` (it never throws). -/
inductive PeerOutcome where
  | success (r : SecondaryResultM)
  | failure (host : String) (error : String)

/-- A JS exception value as it reaches the `catch` clause of
`querySecondary`: an `Error` object with its `name` and `message`, a bare
string (a promise can reject with any value), or anything else. -/
inductive JSException where
  | errorObj (name : String) (message : String)
  | stringValue (s : String)
  | otherValue

/-- The outcome of `fetch(url, {signal})` followed by `response.json()`:
either an HTTP response with its status and the parsed body's relevant
fields (`error` for non-200, `entries`/`cont` for 200), or a rejection
carrying a JS exception value. -/
inductive FetchOutcome where
  | http (status : Int) (errorMsg : String) (entries : List (List Nat))
      (cont : Option String)
  | reject (err : JSException)

/-- Platform-modelled: per WHATWG fetch, aborting a request rejects the
fetch promise with the signal's abort reason, and
`AbortController.abort("Deadline exceeded.")` sets that reason to the
given *string* (it is not wrapped in a `DOMException`).  So a request cut
off by the aggregator's deadline rejects with this bare string value. -/
def deadlineRejection : JSException := .stringValue "Deadline exceeded."

/-- `querySecondary(url, host, signal)` from `src/aggregator.ts`, as a
function of the fetch outcome: non-200 responses contribute the body's
`error` message; 200 responses are remapped to `{host, entry}` pairs; a
rejection is matched against `err instanceof Error && err.name ===
"AbortError"` and otherwise demoted to the generic message. -/
def querySecondary (host : String) (outcome : FetchOutcome) : PeerOutcome :=
  match outcome with
  | .http status errorMsg entries cont =>
      if status ≠ 200 then .failure host errorMsg
      else .success ⟨host, entries.map (fun e => (host, e)), cont⟩
  | .reject (.errorObj name message) =>
      if name = "AbortError" then .failure host message
      else .failure host "Unknown error occured."
  | .reject _ => .failure host "Unknown error occured."

/-- The response body assembled by `Aggregator.handler`.  The mux token is
modelled at payload level: the list of `{host, cont}` records that
`muxContinuationTokens` serializes. -/
structure AggBody where
  messages : List (String × String)
  entries : List (String × List Nat)
  cont : Option (List (String × String))

/-- The `for (const result of results)` loop of `Aggregator.handler`:
failures are pushed onto `messages`, entries are concatenated in result
order, and `{host, cont}` is recorded when `result.cont` is truthy (a
present, non-empty string). -/
def mergeLoop : List PeerOutcome → List (String × String) →
    List (String × List Nat) → List (String × String) →
    List (String × String) × List (String × List Nat) × List (String × String)
  | [], messages, entries, conts => (messages, entries, conts)
  | .failure host error :: rest, messages, entries, conts =>
      mergeLoop rest (messages ++ [(host, error)]) entries conts
  | .success r :: rest, messages, entries, conts =>
      let conts :=
        match r.cont with
        | some c => if c ≠ "" then conts ++ [(r.host, c)] else conts
        | none => conts
      mergeLoop rest messages (entries ++ r.entries) conts

/-- The merge phase of `Aggregator.handler`: fold the peer outcomes (in
the stable order of the request list, which `Promise.all` preserves) and
attach `cont` only when `secondaryContinuations.length` is truthy. -/
def mergeResults (results : List PeerOutcome) : AggBody :=
  let (messages, entries, conts) := mergeLoop results [] [] []
  ⟨messages, entries, if conts.length ≠ 0 then some conts else none⟩

/-! ## Path resolution and the traversal guard (`src/normal.ts`) -/

/-- Split a character list on `/`. -/
def splitSlash : List Char → List (List Char)
  | [] => [[]]
  | c :: cs =>
      if c = '/' then [] :: splitSlash cs
      else
        match splitSlash cs with
        | seg :: segs => (c :: seg) :: segs
        | [] => [[c]]

/-- The segment resolution of `@std/path` posix `normalizeString` for an
absolute path: empty and `.` segments are dropped, `..` pops the previous
segment when one exists and is otherwise dropped (never kept, since
`allowAboveRoot` is false for absolute paths). -/
def normalizeSegments : List (List Char) → List (List Char) → List (List Char)
  | [], stack => stack.reverse
  | seg :: rest, stack =>
      if seg = [] ∨ seg = ['.'] then normalizeSegments rest stack
      else if seg = ['.', '.'] then
        match stack with
        | _ :: stackRest => normalizeSegments rest stackRest
        | [] => normalizeSegments rest []
      else normalizeSegments rest (seg :: stack)

/-- Join resolved segments back into an absolute path string. -/
def joinSegments (segs : List (List Char)) : String :=
  "/" ++ String.intercalate "/" (segs.map fun seg => String.mk seg)

/-- `path.join(cwd, filename)` of `@std/path` (posix) for an absolute
`cwd` and a `filename` beginning with `/`, as `searchLogHandler` calls
it: concatenate with a separator and normalize. -/
def jsPathJoin (cwd filename : String) : String :=
  joinSegments (normalizeSegments (splitSlash (cwd.data ++ '/' :: filename.data)) [])

/-- Character-list prefix test, written out. -/
def listCharLeads : List Char → List Char → Bool
  | [], _ => true
  | _ :: _, [] => false
  | p :: ps, c :: cs => p = c && listCharLeads ps cs

/-- `String.prototype.startsWith` (code-unit prefix). -/
def strStartsWith (s pre : String) : Bool :=
  listCharLeads pre.data s.data

/-- The directory-traversal guard of `searchLogHandler`: the request is
served iff the joined path has the working directory as a string prefix. -/
def traversalGuardAccepts (cwd filename : String) : Bool :=
  strStartsWith (jsPathJoin cwd filename) cwd

/-! ## Spec-side definitions

These definitions follow the wording of the specification (not the
source); they are the reference values the implementation is compared
against. -/

/-- The content of a file with any single trailing newline removed
(spec §8, reverse line fidelity). -/
def stripTrailingNL (f : List Nat) : List Nat :=
  if f.getLast? = some 10 then f.dropLast else f

/-- The lines of a byte string, split on the newline byte (spec-side). -/
def splitLinesSpec : List Nat → List (List Nat)
  | [] => [[]]
  | b :: bs =>
      if b = 10 then [] :: splitLinesSpec bs
      else
        match splitLinesSpec bs with
        | l :: ls => (b :: l) :: ls
        | [] => [[b]]

/-- Truncation of one line to its first `MAX_RESULT_ENTRY_LENGTH` bytes
(spec §4.2, long-line cap). -/
def truncCap (l : List Nat) : List Nat :=
  l.take MAX_RESULT_ENTRY_LENGTH

/-- Join byte lines with the newline byte. -/
def joinWithNL (ls : List (List Nat)) : List Nat :=
  (List.intersperse [10] ls).flatten

/-- Spec §8 property 1, claimed reconstruction: the file content with a
trailing newline removed, each line truncated to the cap. -/
def claimedReconstruction (f : List Nat) : List Nat :=
  joinWithNL ((splitLinesSpec (stripTrailingNL f)).map truncCap)

/-- The reconstruction actually obtainable from a scan: the emitted lines
in reverse emission order (oldest first), joined with newlines. -/
def emittedReconstruction (scan : ScanResult) : List Nat :=
  joinWithNL (scan.lines.reverse.map FileChunk.bytes)

/-- An offset points at the true first byte of a line of `f` when it is 0
or sits immediately after a newline byte (spec §4.2, emission offset). -/
def isLineStart (f : List Nat) (offset : Nat) : Prop :=
  offset = 0 ∨ f.getD (offset - 1) 0 = 10

/-- The acceptance shape stated by the claim for local tokens: an array of
exactly three elements, the first two integers, the third null or an
object. -/
def claimTokenShape (v : JVal) : Prop :=
  ∃ a b c, v = .jarr [a, b, c] ∧ jIsInteger a = true ∧ jIsInteger b = true ∧
    (c = .jnull ∨ jTypeof c = "object")

/-- The acceptance shape the decoder actually implements: as
`claimTokenShape` except that any *falsy* third element (null, `false`,
`0`, `""`) is also let through. -/
def codeTokenShape (v : JVal) : Prop :=
  ∃ a b c, v = .jarr [a, b, c] ∧ jIsInteger a = true ∧ jIsInteger b = true ∧
    (jTruthy c = false ∨ jTypeof c = "object")

/-- Spec-side: the continuation record a peer outcome contributes to the
mux token (its host and token, for a success that carried one). -/
def contOf : PeerOutcome → Option (String × String)
  | .success r => r.cont.map (fun c => (r.host, c))
  | .failure _ _ => none

/-- Spec-side: the entries a peer outcome contributes. -/
def entriesOf : PeerOutcome → List (String × List Nat)
  | .success r => r.entries
  | .failure _ _ => []

/-- A resolved path lies within the working directory (as a directory):
it is the directory itself or extends it past a separator. -/
def pathWithin (cwd p : String) : Prop :=
  p = cwd ∨ strStartsWith p (cwd ++ "/") = true

/-! ## Concrete fixtures -/

/-- A file of 101 one-byte lines, each `"a\n"` (202 bytes). -/
def file101 : List Nat := (List.replicate 101 [97, 10]).flatten

/-- A 65537-byte file whose first line (65535 bytes, an `x` followed by
65534 `a`s) straddles the boundary between the two chunks of the scan:
the byte `x` at offset 0 falls alone into the final chunk. -/
def fileC2 : List Nat := 120 :: (List.replicate 65534 97 ++ [10, 98])

/-- The `else` branch of `searchLogHandler` (`src/normal.ts`): build
`SearchOptions` from the validated query parameters.  `maxResults` is
assigned only when `searchParams.n` is truthy, `query` only when
`searchParams.s` is present (the validator only passes non-empty `s`). -/
def buildPage1Options (n : Option Int) (s : Option String) : SearchOptionsM :=
  { maxResults := match n with | some v => if v ≠ 0 then some v else none | none => none
    query := s.map (fun t => .jobj [("text", .jstr t)])
    resumeFrom := none }

/-- A peer outcome whose continuation token, if present, is non-empty.
Peers are themselves LogServ instances (spec §9), whose `cont` is always
a non-empty base64 string when present. -/
def contNonempty : PeerOutcome → Bool
  | .success s => s.cont ≠ some ""
  | .failure _ _ => true

/-! ## Claim theorems -/

/-- Claim C10. -- The directory-traversal guard accepts exactly the pathnames
whose join with the working directory keeps the working-directory string
as a literal prefix; consequently the pathname `/../workspaceX` under the
working directory `/root/workspace` resolves to `/root/workspaceX` —
outside the working directory — and is accepted rather than answered
with 404. -/
theorem traversalGuard_accepts_sibling_escape :
    jsPathJoin "/root/workspace" "/../workspaceX" = "/root/workspaceX" ∧
    traversalGuardAccepts "/root/workspace" "/../workspaceX" = true ∧
    ¬ pathWithin "/root/workspace" "/root/workspaceX" := by
  refine ⟨by decide, by decide, ?_⟩
  intro h
  rcases h with h | h
  · exact absurd h (by decide)
  · exact absurd h (by decide)

/-- Claim C9. -- A peer call aborted by the 5000 ms deadline rejects with the
bare string `"Deadline exceeded."` (the abort reason), which is not an
`Error` instance; `querySecondary` therefore demotes it to the generic
`"Unknown error occured."` message instead of the abort cause string the
specification promises. -/
theorem querySecondary_deadline_abort_generic_message :
    querySecondary "peer1" (.reject deadlineRejection) =
      .failure "peer1" "Unknown error occured." ∧
    "Unknown error occured." ≠ "Deadline exceeded." := by
  exact ⟨rfl, by decide⟩

/-- Claim C6, counterexample. -- The payload `[1, 2, false]` has a third
element that is neither null nor an object, so the claim says it must be
rejected; `decodeContinuationToken` accepts it (`false` is falsy, so the
`typeof` check is skipped). -/
theorem decodeContinuationToken_accepts_falsy_query :
    decodeContinuationToken (.jarr [.jnum 1, .jnum 2, .jbool false]) =
      .ok ⟨1, 2, .jbool false⟩ ∧
    JVal.jbool false ≠ .jnull ∧
    jTypeof (.jbool false) ≠ "object" := by
  refine ⟨rfl, ?_, by decide⟩
  intro h
  exact JVal.noConfusion h

/-- Claim C6, amended. -- `decodeContinuationToken` succeeds exactly on
payloads that are arrays of exactly three elements whose first two
elements are integers and whose third element is either falsy (null,
`false`, `0`, `""`) or of JS type `"object"`; in particular every token
meeting the claimed shape (third element null or an object) is accepted,
but so are the falsy non-null third elements the claim says are
rejected. -/
theorem decodeContinuationToken_ok_iff (v : JVal) :
    (∃ d, decodeContinuationToken v = .ok d) ↔ codeTokenShape v := by
  constructor
  · intro ⟨d, hd⟩
    cases v with
    | jarr l =>
        match l, hd with
        | [], hd => exact Except.noConfusion hd
        | [_], hd => exact Except.noConfusion hd
        | [_, _], hd => exact Except.noConfusion hd
        | _ :: _ :: _ :: _ :: _, hd => exact Except.noConfusion hd
        | [a, b, c], hd =>
            cases a with
            | jnum qa =>
                cases b with
                | jnum qb =>
                    simp only [decodeContinuationToken] at hd
                    by_cases h1 : qa.den = 1
                    · by_cases h2 : qb.den = 1
                      · rw [if_pos h1, if_pos h2] at hd
                        by_cases h3 : jTruthy c = true ∧ jTypeof c ≠ "object"
                        · rw [if_pos h3] at hd
                          exact Except.noConfusion hd
                        · refine ⟨.jnum qa, .jnum qb, c, rfl, ?_, ?_, ?_⟩
                          · simpa [jIsInteger] using h1
                          · simpa [jIsInteger] using h2
                          · rcases not_and_or.mp h3 with h | h
                            · exact Or.inl (by simpa using h)
                            · exact Or.inr (not_not.mp h)
                      · rw [if_pos h1, if_neg h2] at hd
                        exact Except.noConfusion hd
                    · rw [if_neg h1] at hd
                      exact Except.noConfusion hd
                | jnull => simp only [decodeContinuationToken] at hd
                           split at hd <;> exact Except.noConfusion hd
                | jbool x => simp only [decodeContinuationToken] at hd
                             split at hd <;> exact Except.noConfusion hd
                | jstr x => simp only [decodeContinuationToken] at hd
                            split at hd <;> exact Except.noConfusion hd
                | jarr x => simp only [decodeContinuationToken] at hd
                            split at hd <;> exact Except.noConfusion hd
                | jobj x => simp only [decodeContinuationToken] at hd
                            split at hd <;> exact Except.noConfusion hd
            | jnull => exact Except.noConfusion hd
            | jbool x => exact Except.noConfusion hd
            | jstr x => exact Except.noConfusion hd
            | jarr x => exact Except.noConfusion hd
            | jobj x => exact Except.noConfusion hd
    | jnull => exact Except.noConfusion hd
    | jbool x => exact Except.noConfusion hd
    | jnum x => exact Except.noConfusion hd
    | jstr x => exact Except.noConfusion hd
    | jobj x => exact Except.noConfusion hd
  · intro ⟨a, b, c, hv, ha, hb, hc⟩
    subst hv
    cases a with
    | jnum qa =>
        cases b with
        | jnum qb =>
            have hqa : qa.den = 1 := by simpa [jIsInteger] using ha
            have hqb : qb.den = 1 := by simpa [jIsInteger] using hb
            refine ⟨⟨qa.num, qb.num, c⟩, ?_⟩
            simp only [decodeContinuationToken, hqa, hqb, if_true]
            have hno : ¬ (jTruthy c = true ∧ jTypeof c ≠ "object") := by
              rcases hc with hc | hc
              · intro ⟨h1, _⟩
                rw [hc] at h1
                exact absurd h1 (by decide)
              · intro ⟨_, h2⟩
                exact h2 hc
            rw [if_neg hno]
        | jnull => simp [jIsInteger] at hb
        | jbool x => simp [jIsInteger] at hb
        | jstr x => simp [jIsInteger] at hb
        | jarr x => simp [jIsInteger] at hb
        | jobj x => simp [jIsInteger] at hb
    | jnull => simp [jIsInteger] at ha
    | jbool x => simp [jIsInteger] at ha
    | jstr x => simp [jIsInteger] at ha
    | jarr x => simp [jIsInteger] at ha
    | jobj x => simp [jIsInteger] at ha

/-- Dropping fewer elements than the length preserves the last element. -/
theorem getLast?_drop_of_lt (f : List Nat) (s : Nat) (h : s < f.length) :
    (f.drop s).getLast? = f.getLast? := by
  have hbne : f.drop s ≠ [] := by
    intro hcon
    have := congrArg List.length hcon
    simp at this
    omega
  conv_rhs => rw [← List.take_append_drop s f]
  rw [List.getLast?_append_of_ne_nil _ hbne]

/-- If the element after `bs` is the target and its index is within the
limit, the backward search finds exactly that index (it is the last
match and overwrites every earlier one). -/
theorem lastIdxLeAux_last (t limit : Nat) (bs : List Nat) :
    ∀ (i : Nat) (best : Option Nat), i + bs.length ≤ limit →
      lastIdxLeAux t limit (bs ++ [t]) i best = some (i + bs.length) := by
  induction bs with
  | nil =>
      intro i best h
      simp only [List.length_nil, Nat.add_zero] at h ⊢
      simp [lastIdxLeAux, h]
  | cons b bs ih =>
      intro i best h
      simp only [List.length_cons] at h
      simp only [List.cons_append, lastIdxLeAux, List.append_eq]
      rw [ih (i + 1) _ (by omega)]
      congr 1
      simp only [List.length_cons]
      omega

/-- A search window ending at the final byte of a buffer whose last byte
is a newline finds that newline. -/
theorem lastIndexOf_getLast_newline (bs : List Nat) (h : bs ≠ [])
    (hl : bs.getLast? = some 10) :
    lastIndexOf bs 10 ((bs.length : Int) - 1) = ((bs.length : Int) - 1) := by
  obtain ⟨bs', rfl⟩ : ∃ bs', bs = bs' ++ [10] := by
    refine ⟨bs.dropLast, (List.dropLast_append_getLast? 10 ?_).symm⟩
    simp [hl]
  have hlen : ((bs' ++ [10]).length : Int) = (bs'.length : Int) + 1 := by
    simp
  have hfrom : ((bs' ++ [10]).length : Int) - 1 = (bs'.length : Int) := by
    omega
  rw [hfrom]
  simp only [lastIndexOf, hlen]
  have hk : (0 : Int) ≤ (bs'.length : Int) := Int.natCast_nonneg _
  have hmin : min ((bs'.length : Int)) ((bs'.length : Int) + 1 - 1) =
      (bs'.length : Int) := by omega
  rw [if_pos hk, hmin, if_neg (by omega)]
  have htoNat : ((bs'.length : Int)).toNat = bs'.length := Int.toNat_natCast _
  rw [htoNat, lastIdxLeAux_last 10 bs'.length bs' 0 none (by omega)]
  simp

/-- First-iteration behaviour of the scan loop on a chunk whose last byte
is a newline: the very first emission is the zero-length line sitting
after that newline. -/
theorem lineLoop_trailing_newline_head (chunk : FileChunk) (fuel : Nat)
    (h : chunk.bytes ≠ []) (hl : chunk.bytes.getLast? = some 10) :
    ((lineLoop chunk (fuel + 1) chunk.bytes.length none).1).head? =
      some ⟨chunk.offset + chunk.bytes.length, []⟩ := by
  have hlen : 0 < chunk.bytes.length := List.length_pos.mpr h
  have hli := lastIndexOf_getLast_newline chunk.bytes h hl
  simp only [lineLoop, hli]
  rw [if_neg (by omega)]
  have hstart : (((chunk.bytes.length : Int) - 1) + 1).toNat =
      chunk.bytes.length := by omega
  simp only [hstart, FileChunk.subChunk, List.take_length, List.drop_length]
  simp [MAX_RESULT_ENTRY_LENGTH]

/-- Claim C5, counterexample. --  On the file `"a\n"` the scanner's *first*
emission is a zero-length line at offset 2 (the position after the final
newline); the line the final newline terminates, `"a"` at offset 0, is
only emitted second.  So the trailing newline does produce an extra
zero-length emission, contrary to the claim. -/
theorem linesReverse_trailing_newline_counterexample :
    linesReverse [97, 10] none = .ok ⟨[⟨2, []⟩, ⟨0, [97]⟩], true⟩ ∧
    (FileChunk.mk 2 []).bytes = [] ∧
    FileChunk.mk 2 [] ≠ ⟨0, [97]⟩ := by
  refine ⟨rfl, rfl, by decide⟩

/-- The head of the scan is the first line the first chunk loop emits,
whether or not that loop terminated. -/
theorem linesFromChunks_head_of_lineLoop (c : FileChunk) (rest : List FileChunk)
    (pl0 : Option FileChunk) (l0 : FileChunk) (ls : List FileChunk) (ex : LoopExit)
    (h : lineLoop c (c.bytes.length + 2) c.bytes.length pl0 = (l0 :: ls, ex)) :
    (linesFromChunks (c :: rest) pl0).lines.head? = some l0 := by
  cases ex with
  | finished pl =>
      simp only [linesFromChunks, h]
      simp
  | fuelOut =>
      simp only [linesFromChunks, h]
      simp

/-- Claim C5, amended. --  For every non-empty file ending in a newline, the
first line emitted by `linesReverse` is a *zero-length* line positioned at
the file's length (just past the final newline); the line terminated by
that newline follows it.  (`searchLog` discards zero-length lines, so no
empty entry reaches the HTTP surface.) -/
theorem linesReverse_trailing_newline_amended (f : List Nat) (h1 : f ≠ [])
    (h2 : f.getLast? = some 10) :
    (linesReverse f none).map (fun scan => scan.lines.head?) =
      .ok (some ⟨f.length, []⟩) := by
  have hlen : 0 < f.length := List.length_pos.mpr h1
  obtain ⟨m, hm⟩ : ∃ m, f.length = m + 1 :=
    ⟨f.length - 1, by omega⟩
  have hchunks : chunksFrom f f.length f.length =
      readChunk f (f.length - CHUNK_SIZE) (f.length - (f.length - CHUNK_SIZE)) ::
        chunksFrom f m (f.length - CHUNK_SIZE) := by
    rw [hm]
    simp only [chunksFrom]
    rw [if_neg (by omega)]
  set s := f.length - CHUNK_SIZE with hs
  have hslt : s < f.length := by
    have : 0 < CHUNK_SIZE := by decide
    omega
  have hbytes : (readChunk f s (f.length - s)).bytes = f.drop s := by
    simp only [readChunk]
    exact List.take_of_length_le (by simp)
  have hbne : f.drop s ≠ [] := by
    intro hcon
    have := congrArg List.length hcon
    simp at this
    omega
  have hblast : (f.drop s).getLast? = some 10 := by
    rw [getLast?_drop_of_lt f s hslt]
    exact h2
  have hscan : linesReverse f none =
      .ok (linesFromChunks (chunksFrom f f.length f.length) none) := rfl
  have hhead := lineLoop_trailing_newline_head (readChunk f s (f.length - s))
    ((readChunk f s (f.length - s)).bytes.length + 1)
    (by rw [hbytes]; exact hbne) (by rw [hbytes]; exact hblast)
  rw [show (readChunk f s (f.length - s)).bytes.length + 1 + 1 =
      (readChunk f s (f.length - s)).bytes.length + 2 from rfl] at hhead
  have hoff : (readChunk f s (f.length - s)).offset +
      (readChunk f s (f.length - s)).bytes.length = f.length := by
    simp only [readChunk, hbytes]
    simp
    omega
  rw [hoff] at hhead
  rcases hloop : lineLoop (readChunk f s (f.length - s))
      ((readChunk f s (f.length - s)).bytes.length + 2)
      (readChunk f s (f.length - s)).bytes.length none with ⟨ls, exit⟩
  rw [hloop] at hhead
  obtain ⟨l0, ls', rfl⟩ : ∃ l0 ls', ls = l0 :: ls' := by
    cases ls with
    | nil => simp at hhead
    | cons l0 ls' => exact ⟨l0, ls', rfl⟩
  simp only [List.head?_cons, Option.some_inj] at hhead
  rw [hscan, hchunks]
  simp only [Except.map]
  rw [linesFromChunks_head_of_lineLoop _ _ _ _ _ _ hloop, hhead]

/-- Witness for the amended C5 theorem at the two-byte file. -/
theorem linesReverse_trailing_newline_amended_witness :
    ([97, 10] : List Nat) ≠ [] ∧ ([97, 10] : List Nat).getLast? = some 10 ∧
    (linesReverse [97, 10] none).map (fun scan => scan.lines.head?) =
      .ok (some ⟨2, []⟩) :=
  ⟨by decide, by decide,
    linesReverse_trailing_newline_amended [97, 10] (by decide) (by decide)⟩

set_option maxRecDepth 40000 in
/-- Claim C1. -- A continuation token whose payload carries `maxResults = 0`
decodes successfully, survives `validateAndNormalizeSearchOptions`
unchanged (`0` is falsy for the cap and non-nullish for the default), and
makes `searchLog` ignore the result limit entirely: on a 101-line file
the response body carries 101 entries, exceeding `GLOBAL_MAX_RESULTS`. -/
theorem searchLogHandlerCont_zero_maxResults_unbounded :
    (searchLogHandlerCont file101 (.jarr [.jnum 202, .jnum 0, .jnull])).map
        (fun r => r.1.length) = .ok 101 ∧
    101 > GLOBAL_MAX_RESULTS ∧
    (validateAndNormalizeSearchOptions ⟨some 0, some .jnull, some 202⟩).map
        (fun o => o.maxResults) = .ok (some 0) := by
  refine ⟨by rfl, by decide, by rfl⟩

/-- Evaluation of the `maxResults` normalization on a present nonzero
value. -/
theorem normalizeMaxResults_pos (mr : Int) (q : Option JVal) (rf : Option Int)
    (h : mr ≠ 0) :
    normalizeMaxResults ⟨some mr, q, rf⟩ = ⟨some (min mr 100), q, rf⟩ := by
  simp [normalizeMaxResults, h, GLOBAL_MAX_RESULTS]

/-- Evaluation of the `maxResults` normalization on an absent value. -/
theorem normalizeMaxResults_absent (q : Option JVal) (rf : Option Int) :
    normalizeMaxResults ⟨none, q, rf⟩ = ⟨some 100, q, rf⟩ := by
  simp [normalizeMaxResults, GLOBAL_MAX_RESULTS]

/-- `validateAndNormalizeSearchOptions` on a well-formed text query within
the length bound: the query check passes. -/
theorem validateAndNormalize_textQuery (mr rf : Option Int) (t : String)
    (ht : t.length ≤ MAX_SEARCH_TEXT_LENGTH) :
    validateAndNormalizeSearchOptions ⟨mr, some (.jobj [("text", .jstr t)]), rf⟩ =
      .ok (normalizeMaxResults ⟨mr, some (.jobj [("text", .jstr t)]), rf⟩) := by
  have hcheck : jsTextLengthGt (jField (JVal.jobj [("text", JVal.jstr t)]) "text")
      MAX_SEARCH_TEXT_LENGTH = .ok false := by
    show Except.ok (decide (t.length > MAX_SEARCH_TEXT_LENGTH)) = Except.ok false
    exact congrArg Except.ok (decide_eq_false (by omega))
  simp only [validateAndNormalizeSearchOptions, jTruthy, hcheck]
  simp

/-- `validateAndNormalizeSearchOptions` on a `null` query: falsy, so the
check is skipped. -/
theorem validateAndNormalize_nullQuery (mr rf : Option Int) :
    validateAndNormalizeSearchOptions ⟨mr, some .jnull, rf⟩ =
      .ok (normalizeMaxResults ⟨mr, some .jnull, rf⟩) := rfl

/-- `validateAndNormalizeSearchOptions` with no query present. -/
theorem validateAndNormalize_noQuery (mr rf : Option Int) :
    validateAndNormalizeSearchOptions ⟨mr, none, rf⟩ =
      .ok (normalizeMaxResults ⟨mr, none, rf⟩) := rfl

/-- Decoding the token minted by `encodeContinuationToken` recovers its
fields when the query is a text object. -/
theorem decode_encode_textQuery (r m : Int) (t : String) :
    decodeContinuationToken
        (encodeContinuationToken r (some m) (some (.jobj [("text", .jstr t)]))) =
      .ok ⟨r, m, .jobj [("text", .jstr t)]⟩ := by
  simp only [encodeContinuationToken, decodeContinuationToken, Option.getD_some,
    Rat.den_intCast, if_true]
  rw [if_neg (by simp [jTruthy, jTypeof])]
  simp [Rat.num_intCast]

/-- Decoding the token minted by `encodeContinuationToken` recovers its
fields when no query is present (serialized as `null`). -/
theorem decode_encode_noQuery (r m : Int) :
    decodeContinuationToken (encodeContinuationToken r (some m) none) =
      .ok ⟨r, m, .jnull⟩ := by
  simp only [encodeContinuationToken, decodeContinuationToken, Option.getD_none,
    Rat.den_intCast, if_true]
  rw [if_neg (by simp [jTruthy])]
  simp [Rat.num_intCast]

/-- Claim C7. -- Round-trip of the local continuation token minted on a
page-1 request: for any validated page-1 parameters (`n ≥ 1` when present,
`s` of length ≤ 200 when present) and any `resumeFrom` the engine
reports, normalization yields options whose `maxResults` lies in
`[1, 100]`; the minted token decodes to the same `maxResults` and the
same query (an absent query is serialized as `null`, which denotes the
same no-filter search), and normalizing the decoded options changes
neither, so every subsequent page runs with the limit and filter of
page 1. -/
theorem continuationToken_roundtrip (n : Option Int) (s : Option String) (r : Int)
    (hn : ∀ v ∈ n, 1 ≤ v) (hs : ∀ t ∈ s, t.length ≤ MAX_SEARCH_TEXT_LENGTH) :
    ∃ o1, validateAndNormalizeSearchOptions (buildPage1Options n s) = .ok o1 ∧
      (∃ m1, o1.maxResults = some m1 ∧ 1 ≤ m1 ∧ m1 ≤ 100) ∧
      o1.query = (buildPage1Options n s).query ∧
      (∃ d, decodeContinuationToken
          (encodeContinuationToken r o1.maxResults o1.query) = .ok d ∧
        some d.maxResults = o1.maxResults ∧
        d.query = o1.query.getD .jnull ∧
        d.resumeFrom = r ∧
        (∃ o2, validateAndNormalizeSearchOptions d.toOptions = .ok o2 ∧
          o2.maxResults = o1.maxResults ∧
          searchTextOf o2.query = searchTextOf o1.query)) := by
  cases n with
  | some v =>
      have hv : 1 ≤ v := hn v rfl
      have hvne : v ≠ 0 := by omega
      have hmne : min v 100 ≠ 0 := by omega
      have hmm : min (min v 100) 100 = min v 100 := by omega
      cases s with
      | some t =>
          have ht : t.length ≤ MAX_SEARCH_TEXT_LENGTH := hs t rfl
          have hb : buildPage1Options (some v) (some t) =
              ⟨some v, some (.jobj [("text", .jstr t)]), none⟩ := by
            simp [buildPage1Options, hvne]
          refine ⟨⟨some (min v 100), some (.jobj [("text", .jstr t)]), none⟩,
            ?_, ⟨min v 100, rfl, by omega, by omega⟩, by rw [hb], ?_⟩
          · rw [hb, validateAndNormalize_textQuery _ _ t ht,
              normalizeMaxResults_pos v _ _ hvne]
          · refine ⟨⟨r, min v 100, .jobj [("text", .jstr t)]⟩,
              decode_encode_textQuery r (min v 100) t, rfl, rfl, rfl,
              ⟨⟨some (min (min v 100) 100), some (.jobj [("text", .jstr t)]), some r⟩,
                ?_, by rw [hmm], rfl⟩⟩
            rw [show DecodedToken.toOptions ⟨r, min v 100, .jobj [("text", .jstr t)]⟩ =
                ⟨some (min v 100), some (.jobj [("text", .jstr t)]), some r⟩ from rfl,
              validateAndNormalize_textQuery _ _ t ht,
              normalizeMaxResults_pos (min v 100) _ _ hmne]
      | none =>
          have hb : buildPage1Options (some v) none =
              ⟨some v, none, none⟩ := by
            simp [buildPage1Options, hvne]
          refine ⟨⟨some (min v 100), none, none⟩,
            ?_, ⟨min v 100, rfl, by omega, by omega⟩, by rw [hb], ?_⟩
          · rw [hb, validateAndNormalize_noQuery,
              normalizeMaxResults_pos v _ _ hvne]
          · refine ⟨⟨r, min v 100, .jnull⟩,
              decode_encode_noQuery r (min v 100), rfl, rfl, rfl,
              ⟨⟨some (min (min v 100) 100), some .jnull, some r⟩,
                ?_, by rw [hmm], rfl⟩⟩
            rw [show DecodedToken.toOptions ⟨r, min v 100, .jnull⟩ =
                ⟨some (min v 100), some .jnull, some r⟩ from rfl,
              validateAndNormalize_nullQuery,
              normalizeMaxResults_pos (min v 100) _ _ hmne]
  | none =>
      have h100 : (100 : Int) ≠ 0 := by omega
      have hmm : min (100 : Int) 100 = 100 := by omega
      cases s with
      | some t =>
          have ht : t.length ≤ MAX_SEARCH_TEXT_LENGTH := hs t rfl
          have hb : buildPage1Options none (some t) =
              ⟨none, some (.jobj [("text", .jstr t)]), none⟩ := by
            simp [buildPage1Options]
          refine ⟨⟨some 100, some (.jobj [("text", .jstr t)]), none⟩,
            ?_, ⟨100, rfl, by omega, by omega⟩, by rw [hb], ?_⟩
          · rw [hb, validateAndNormalize_textQuery _ _ t ht,
              normalizeMaxResults_absent]
          · refine ⟨⟨r, 100, .jobj [("text", .jstr t)]⟩,
              decode_encode_textQuery r 100 t, rfl, rfl, rfl,
              ⟨⟨some (min (100 : Int) 100), some (.jobj [("text", .jstr t)]), some r⟩,
                ?_, by rw [hmm], rfl⟩⟩
            rw [show DecodedToken.toOptions ⟨r, 100, .jobj [("text", .jstr t)]⟩ =
                ⟨some 100, some (.jobj [("text", .jstr t)]), some r⟩ from rfl,
              validateAndNormalize_textQuery _ _ t ht,
              normalizeMaxResults_pos 100 _ _ h100]
      | none =>
          refine ⟨⟨some 100, none, none⟩,
            ?_, ⟨100, rfl, by omega, by omega⟩, by simp [buildPage1Options], ?_⟩
          · rw [show buildPage1Options none none = ⟨none, none, none⟩ from rfl,
              validateAndNormalize_noQuery, normalizeMaxResults_absent]
          · refine ⟨⟨r, 100, .jnull⟩,
              decode_encode_noQuery r 100, rfl, rfl, rfl,
              ⟨⟨some (min (100 : Int) 100), some .jnull, some r⟩,
                ?_, by rw [hmm], rfl⟩⟩
            rw [show DecodedToken.toOptions ⟨r, 100, .jnull⟩ =
                ⟨some 100, some .jnull, some r⟩ from rfl,
              validateAndNormalize_nullQuery,
              normalizeMaxResults_pos 100 _ _ h100]

/-- Witness for the round-trip theorem at `n = 150`, `s = "status"`,
`resumeFrom = 57`. -/
theorem continuationToken_roundtrip_witness :
    (∀ v ∈ (some 150 : Option Int), 1 ≤ v) ∧
    (∀ t ∈ (some "status" : Option String), t.length ≤ MAX_SEARCH_TEXT_LENGTH) ∧
    (∃ o1, validateAndNormalizeSearchOptions
        (buildPage1Options (some 150) (some "status")) = .ok o1 ∧
      (∃ m1, o1.maxResults = some m1 ∧ 1 ≤ m1 ∧ m1 ≤ 100) ∧
      o1.query = (buildPage1Options (some 150) (some "status")).query ∧
      (∃ d, decodeContinuationToken
          (encodeContinuationToken 57 o1.maxResults o1.query) = .ok d ∧
        some d.maxResults = o1.maxResults ∧
        d.query = o1.query.getD .jnull ∧
        d.resumeFrom = 57 ∧
        (∃ o2, validateAndNormalizeSearchOptions d.toOptions = .ok o2 ∧
          o2.maxResults = o1.maxResults ∧
          searchTextOf o2.query = searchTextOf o1.query))) :=
  ⟨by decide, by intro t htm; cases htm; decide,
    continuationToken_roundtrip (some 150) (some "status") 57
      (by decide) (by intro t htm; cases htm; decide)⟩

/-- Accumulator characterization of the aggregator's merge loop: messages,
entries and continuations are each the accumulator followed by the
contribution of the remaining outcomes, in order. -/
theorem mergeLoop_spec (results : List PeerOutcome) :
    ∀ ms es cs, mergeLoop results ms es cs =
      (ms ++ results.filterMap (fun ro => match ro with
          | .failure h e => some (h, e)
          | .success _ => none),
       es ++ (results.map entriesOf).flatten,
       cs ++ results.filterMap (fun ro => match ro with
          | .success s =>
              match s.cont with
              | some c => if c ≠ "" then some (s.host, c) else none
              | none => none
          | .failure _ _ => none)) := by
  induction results with
  | nil => intro ms es cs; simp [mergeLoop]
  | cons ro rest ih =>
      intro ms es cs
      cases ro with
      | failure h e => simp [mergeLoop, ih, entriesOf]
      | success s =>
          cases hc : s.cont with
          | none => simp [mergeLoop, hc, ih, entriesOf]
          | some c =>
              by_cases hce : c = ""
              · simp [mergeLoop, hc, hce, ih, entriesOf]
              · simp [mergeLoop, hc, hce, ih, entriesOf]

/-- Claim C8. -- For every list of peer outcomes whose continuation
tokens are non-empty when present (peers are LogServ instances, whose
tokens are non-empty base64 strings), the merged body's entries are the
concatenation of the per-peer entry lists in the stable peer order, the
mux continuation token consists of exactly the `{host, cont}` records of
the successful peers that carried a token (in order; failed or exhausted
peers are absent), and the body's `cont` field is present iff at least
one peer returned a token. -/
theorem mergeResults_spec (results : List PeerOutcome)
    (h : ∀ ro ∈ results, contNonempty ro = true) :
    (mergeResults results).entries = (results.map entriesOf).flatten ∧
    (mergeResults results).cont =
      (if results.filterMap contOf = [] then none
       else some (results.filterMap contOf)) := by
  have hfilter : results.filterMap (fun ro => match ro with
      | .success s =>
          match s.cont with
          | some c => if c ≠ "" then some (s.host, c) else none
          | none => none
      | .failure _ _ => none) = results.filterMap contOf := by
    apply List.filterMap_congr
    intro ro hro
    cases ro with
    | failure hh ee => rfl
    | success s =>
        cases hc : s.cont with
        | none => simp [contOf, hc]
        | some c =>
            have := h _ hro
            simp only [contNonempty, hc] at this
            have hcne : c ≠ "" := by
              intro hcon
              rw [hcon] at this
              simp at this
            simp [contOf, hc, hcne]
  have hm := mergeLoop_spec results [] [] []
  simp only [List.nil_append] at hm
  constructor
  · simp only [mergeResults, hm]
  · simp only [mergeResults, hm, hfilter]
    by_cases hnil : results.filterMap contOf = []
    · simp [hnil]
    · have : (results.filterMap contOf).length ≠ 0 := by
        simpa [List.length_eq_zero] using hnil
      simp [hnil, this]

/-- Witness for the merge theorem at a three-peer outcome list: one peer
still paginating, one failed, one exhausted. -/
theorem mergeResults_spec_witness :
    (∀ ro ∈ ([.success ⟨"h1", [("h1", [97])], some "t1"⟩,
              .failure "h2" "boom",
              .success ⟨"h3", [("h3", [98])], none⟩] : List PeerOutcome),
        contNonempty ro = true) ∧
    ((mergeResults [.success ⟨"h1", [("h1", [97])], some "t1"⟩,
              .failure "h2" "boom",
              .success ⟨"h3", [("h3", [98])], none⟩]).entries =
        (([.success ⟨"h1", [("h1", [97])], some "t1"⟩,
              .failure "h2" "boom",
              .success ⟨"h3", [("h3", [98])], none⟩] : List PeerOutcome).map
          entriesOf).flatten ∧
      (mergeResults [.success ⟨"h1", [("h1", [97])], some "t1"⟩,
              .failure "h2" "boom",
              .success ⟨"h3", [("h3", [98])], none⟩]).cont =
        (if ([.success ⟨"h1", [("h1", [97])], some "t1"⟩,
              .failure "h2" "boom",
              .success ⟨"h3", [("h3", [98])], none⟩] : List PeerOutcome).filterMap
            contOf = []
         then none
         else some (([.success ⟨"h1", [("h1", [97])], some "t1"⟩,
              .failure "h2" "boom",
              .success ⟨"h3", [("h3", [98])], none⟩] : List PeerOutcome).filterMap
            contOf))) := by
  constructor
  · intro ro hro
    fin_cases hro <;> rfl
  · exact mergeResults_spec _ (by intro ro hro; fin_cases hro <;> rfl)

/-! ## Evaluation of the scan on `fileC2` (the chunk-straddling line)

The file is 65537 bytes, so the scan reads two chunks: a 65536-byte chunk
at offset 1 and a one-byte chunk at offset 0.  Every step below is proved
by rewriting, never by evaluating through the 65534-element run of
`a`s (which the kernel could not reduce). -/

/-- The backward search skips over a run of non-target bytes. -/
theorem lastIdxLeAux_replicate (t limit a : Nat) (ha : a ≠ t) (rest : List Nat) :
    ∀ (n i : Nat) (best : Option Nat),
      lastIdxLeAux t limit (List.replicate n a ++ rest) i best =
        lastIdxLeAux t limit rest (i + n) best := by
  intro n
  induction n with
  | zero => intro i best; simp
  | succ m ih =>
      intro i best
      simp only [List.replicate_succ, List.cons_append, lastIdxLeAux, List.append_eq]
      rw [if_neg (by simp [ha])]
      rw [ih (i + 1)]
      congr 1
      omega

theorem chunkA_bytes_length :
    (List.replicate 65534 97 ++ [10, 98]).length = 65536 := by
  rw [List.length_append, List.length_replicate]
  rfl

theorem lastIndexOf_chunkA_full :
    lastIndexOf (List.replicate 65534 97 ++ [10, 98]) 10 (((65536 : Nat) : Int) - 1) =
      65534 := by
  simp only [lastIndexOf, chunkA_bytes_length]
  rw [if_pos (show (0 : Int) ≤ ((65536 : Nat) : Int) - 1 from by norm_num)]
  rw [show (((65536 : Nat) : Int) - 1) ⊓ (((65536 : Nat) : Int) - 1) =
      (65535 : Int) from by norm_num]
  rw [if_neg (show ¬ (65535 : Int) < 0 from by norm_num)]
  rw [show ((65535 : Int)).toNat = 65535 from rfl]
  rw [lastIdxLeAux_replicate 10 65535 97 (by decide) [10, 98] 65534 0 none]
  rfl

theorem lastIndexOf_chunkA_rest :
    lastIndexOf (List.replicate 65534 97 ++ [10, 98]) 10 (((65534 : Nat) : Int) - 1) =
      -1 := by
  simp only [lastIndexOf, chunkA_bytes_length]
  rw [if_pos (show (0 : Int) ≤ ((65534 : Nat) : Int) - 1 from by norm_num)]
  rw [show (((65534 : Nat) : Int) - 1) ⊓ (((65536 : Nat) : Int) - 1) =
      (65533 : Int) from by norm_num]
  rw [if_neg (show ¬ (65533 : Int) < 0 from by norm_num)]
  rw [show ((65533 : Int)).toNat = 65533 from rfl]
  rw [lastIdxLeAux_replicate 10 65533 97 (by decide) [10, 98] 65534 0 none]
  rfl

theorem lineLoop_found_none (chunk : FileChunk) (fuel lineEnding : Nat) (p : Int)
    (hfind : lastIndexOf chunk.bytes 10 ((lineEnding : Int) - 1) = p)
    (hneg : ¬ p = -1) (line : FileChunk)
    (hline : chunk.subChunk (p + 1).toNat lineEnding = line)
    (hcap : ¬ line.bytes.length > MAX_RESULT_ENTRY_LENGTH) :
    lineLoop chunk (fuel + 1) lineEnding none =
      (line :: (lineLoop chunk fuel p.toNat none).1,
       (lineLoop chunk fuel p.toNat none).2) := by
  simp only [lineLoop, hfind]
  rw [if_neg hneg, hline, if_neg hcap]

theorem lineLoop_notfound_none (chunk : FileChunk) (fuel lineEnding : Nat)
    (hfind : lastIndexOf chunk.bytes 10 ((lineEnding : Int) - 1) = -1) :
    lineLoop chunk (fuel + 1) lineEnding none =
      ([], .finished (some (chunk.subChunk 0 lineEnding))) := by
  simp only [lineLoop, hfind]
  simp

theorem lineLoop_notfound_pending_big (chunk : FileChunk) (fuel lineEnding : Nat)
    (pl : FileChunk)
    (hfind : lastIndexOf chunk.bytes 10 ((lineEnding : Int) - 1) = -1)
    (hle : ¬ lineEnding > MAX_RESULT_ENTRY_LENGTH)
    (hbig : pl.bytes.length > MAX_RESULT_ENTRY_LENGTH) :
    lineLoop chunk (fuel + 1) lineEnding (some pl) =
      ([], .finished (some (pl.subChunk 0 MAX_RESULT_ENTRY_LENGTH))) := by
  simp only [lineLoop, hfind, if_true]
  rw [if_neg hle, if_pos hbig]

theorem subChunkA_tail :
    FileChunk.subChunk ⟨1, List.replicate 65534 97 ++ [10, 98]⟩ 65535 65536 =
      ⟨65536, [98]⟩ := by
  simp only [FileChunk.subChunk]
  rw [List.take_of_length_le (le_of_eq chunkA_bytes_length)]
  rw [List.drop_append_eq_append_drop, List.drop_replicate, List.length_replicate]
  rw [show (65534 : Nat) - 65535 = 0 from rfl,
    show (65535 : Nat) - 65534 = 1 from rfl]
  rw [List.replicate_zero, List.nil_append]
  rfl

theorem subChunkA_head :
    FileChunk.subChunk ⟨1, List.replicate 65534 97 ++ [10, 98]⟩ 0 65534 =
      ⟨1, List.replicate 65534 97⟩ := by
  simp only [FileChunk.subChunk]
  rw [List.drop_zero, List.take_append_eq_append_take, List.take_replicate,
    List.length_replicate,
    show min (65534 : Nat) 65534 = 65534 from rfl,
    show (65534 : Nat) - 65534 = 0 from rfl,
    List.take_zero, List.append_nil]

theorem subChunk_cap :
    FileChunk.subChunk ⟨1, List.replicate 65534 97⟩ 0 MAX_RESULT_ENTRY_LENGTH =
      ⟨1, List.replicate 2048 97⟩ := by
  simp only [FileChunk.subChunk, MAX_RESULT_ENTRY_LENGTH]
  rw [List.drop_zero, List.take_replicate]
  rw [show min (2048 : Nat) 65534 = 2048 from rfl]

theorem lineLoop_chunkA_iter2 :
    lineLoop ⟨1, List.replicate 65534 97 ++ [10, 98]⟩ 65537 65534 none =
      ([], .finished (some ⟨1, List.replicate 65534 97⟩)) := by
  rw [show (65537 : Nat) = 65536 + 1 from rfl]
  rw [lineLoop_notfound_none ⟨1, List.replicate 65534 97 ++ [10, 98]⟩ 65536 65534
      lastIndexOf_chunkA_rest,
    subChunkA_head]

theorem lineLoop_chunkA :
    lineLoop ⟨1, List.replicate 65534 97 ++ [10, 98]⟩ 65538 65536 none =
      ([⟨65536, [98]⟩], .finished (some ⟨1, List.replicate 65534 97⟩)) := by
  rw [show (65538 : Nat) = 65537 + 1 from rfl]
  rw [lineLoop_found_none ⟨1, List.replicate 65534 97 ++ [10, 98]⟩ 65537 65536 65534
      lastIndexOf_chunkA_full (by decide) ⟨65536, [98]⟩
      (by rw [show ((65534 : Int) + 1).toNat = 65535 from rfl]; exact subChunkA_tail)
      (by decide),
    show ((65534 : Int)).toNat = 65534 from rfl,
    lineLoop_chunkA_iter2]

theorem lineLoop_chunkB :
    lineLoop ⟨0, [120]⟩ 3 1 (some ⟨1, List.replicate 65534 97⟩) =
      ([], .finished (some ⟨1, List.replicate 2048 97⟩)) := by
  rw [show (3 : Nat) = 2 + 1 from rfl]
  rw [lineLoop_notfound_pending_big ⟨0, [120]⟩ 2 1 ⟨1, List.replicate 65534 97⟩
      (by decide) (by decide)
      (by rw [show (FileChunk.mk 1 (List.replicate 65534 97)).bytes =
            List.replicate 65534 97 from rfl, List.length_replicate]
          decide),
    subChunk_cap]

theorem chunksFrom_succ (file : List Nat) (fuel e : Nat) :
    chunksFrom file (fuel + 1) e =
      if e = 0 then []
      else readChunk file (e - CHUNK_SIZE) (e - (e - CHUNK_SIZE)) ::
        chunksFrom file fuel (e - CHUNK_SIZE) := rfl

theorem chunksReverse_fileC2 :
    chunksReverse fileC2 none =
      .ok [⟨1, List.replicate 65534 97 ++ [10, 98]⟩, ⟨0, [120]⟩] := by
  have hlen : fileC2.length = 65537 := by
    rw [fileC2, List.length_cons, List.length_append, List.length_replicate]
    rfl
  have h1 : chunksReverse fileC2 none =
      .ok (chunksFrom fileC2 fileC2.length fileC2.length) := rfl
  rw [h1, hlen]
  rw [show (65537 : Nat) = 65536 + 1 from rfl]
  rw [chunksFrom_succ]
  rw [if_neg (by decide)]
  rw [show (65536 : Nat) + 1 - CHUNK_SIZE = 1 from by rw [CHUNK_SIZE],
    show (65536 : Nat) + 1 - 1 = 65536 from rfl]
  rw [show (65536 : Nat) = 65535 + 1 from rfl]
  rw [chunksFrom_succ]
  rw [if_neg (by decide)]
  rw [show (1 : Nat) - CHUNK_SIZE = 0 from by rw [CHUNK_SIZE],
    show (1 : Nat) - 0 = 1 from rfl]
  rw [show (65535 : Nat) = 65534 + 1 from rfl]
  rw [chunksFrom_succ]
  rw [if_pos rfl]
  simp only [readChunk]
  rw [show (65534 : Nat) + 1 + 1 = 65536 from rfl]
  rw [fileC2]
  rw [show (1 : Nat) = 0 + 1 from rfl, List.drop_succ_cons, List.drop_zero]
  rw [List.take_of_length_le (le_of_eq chunkA_bytes_length)]
  rw [List.drop_zero, List.take_succ_cons, List.take_zero]

theorem linesFromChunks_cons_finished (c : FileChunk) (rest : List FileChunk)
    (pl0 pl : Option FileChunk) (ls : List FileChunk)
    (h : lineLoop c (c.bytes.length + 2) c.bytes.length pl0 = (ls, .finished pl)) :
    linesFromChunks (c :: rest) pl0 =
      ⟨ls ++ (linesFromChunks rest pl).lines, (linesFromChunks rest pl).completed⟩ := by
  simp only [linesFromChunks, h]

theorem linesFromChunks_nil_some (pl : FileChunk) :
    linesFromChunks [] (some pl) = ⟨[pl], true⟩ := rfl

theorem linesReverse_fileC2 :
    linesReverse fileC2 none =
      .ok ⟨[⟨65536, [98]⟩, ⟨1, List.replicate 2048 97⟩], true⟩ := by
  have h1 : linesReverse fileC2 none =
      (chunksReverse fileC2 none).map (fun chunks => linesFromChunks chunks none) :=
    rfl
  rw [h1, chunksReverse_fileC2]
  simp only [Except.map]
  rw [linesFromChunks_cons_finished ⟨1, List.replicate 65534 97 ++ [10, 98]⟩
      [⟨0, [120]⟩] none (some ⟨1, List.replicate 65534 97⟩) [⟨65536, [98]⟩]
      (by rw [show (FileChunk.mk 1 (List.replicate 65534 97 ++ [10, 98])).bytes =
            List.replicate 65534 97 ++ [10, 98] from rfl, chunkA_bytes_length]
          exact lineLoop_chunkA),
    linesFromChunks_cons_finished ⟨0, [120]⟩ [] (some ⟨1, List.replicate 65534 97⟩)
      (some ⟨1, List.replicate 2048 97⟩) []
      (by rw [show (FileChunk.mk 0 [120]).bytes = [120] from rfl]
          exact lineLoop_chunkB),
    linesFromChunks_nil_some]
  rfl

/-- `splitLinesSpec` passes over a newline-free run. -/
theorem splitLinesSpec_replicate (a : Nat) (ha : ¬ a = 10) (rest : List Nat)
    (l : List Nat) (ls : List (List Nat)) (h : splitLinesSpec rest = l :: ls) :
    ∀ n, splitLinesSpec (List.replicate n a ++ rest) =
      (List.replicate n a ++ l) :: ls := by
  intro n
  induction n with
  | zero => simp [h]
  | succ m ih =>
      rw [List.replicate_succ, List.cons_append]
      simp only [splitLinesSpec, ih]
      rw [if_neg ha, List.cons_append]

/-- `splitLinesSpec` steps over a non-newline head byte. -/
theorem splitLinesSpec_cons_ne (b : Nat) (hb : ¬ b = 10) (bs : List Nat)
    (l : List Nat) (ls : List (List Nat)) (h : splitLinesSpec bs = l :: ls) :
    splitLinesSpec (b :: bs) = (b :: l) :: ls := by
  simp only [splitLinesSpec, h]
  rw [if_neg hb]

/-- `fileC2` regrouped to expose its last byte. -/
theorem fileC2_concat :
    fileC2 = (120 :: (List.replicate 65534 97 ++ [10])) ++ [98] := by
  rw [fileC2, List.cons_append, List.append_assoc]
  rfl

/-- The last byte of `fileC2` is `b`, not a newline. -/
theorem fileC2_getLast : fileC2.getLast? = some 98 := by
  rw [fileC2_concat, List.getLast?_concat]

/-- `fileC2` has no trailing newline to strip. -/
theorem stripTrailingNL_fileC2 : stripTrailingNL fileC2 = fileC2 := by
  simp only [stripTrailingNL, fileC2_getLast]
  rw [if_neg (by decide)]

/-- The true lines of `fileC2`: the 65535-byte line starting with `x` and
the one-byte line `b`. -/
theorem splitLinesSpec_fileC2 :
    splitLinesSpec fileC2 = [120 :: List.replicate 65534 97, [98]] := by
  have h2 : splitLinesSpec [10, 98] = [[], [98]] := rfl
  have h1 := splitLinesSpec_replicate 97 (by decide) [10, 98] [] [[98]] h2 65534
  rw [List.append_nil] at h1
  have h0 := splitLinesSpec_cons_ne 120 (by decide) _ _ _ h1
  rw [fileC2]
  exact h0

/-- The claimed reconstruction of `fileC2` keeps the first line's leading
byte `x`. -/
theorem claimedReconstruction_fileC2 :
    claimedReconstruction fileC2 =
      joinWithNL [120 :: List.replicate 2047 97, [98]] := by
  rw [claimedReconstruction, stripTrailingNL_fileC2, splitLinesSpec_fileC2]
  rw [List.map_cons, List.map_cons, List.map_nil]
  rw [show truncCap [98] = [98] from rfl]
  rw [show truncCap (120 :: List.replicate 65534 97) =
      120 :: List.replicate 2047 97 from by
    simp only [truncCap, MAX_RESULT_ENTRY_LENGTH]
    rw [show (2048 : Nat) = 2047 + 1 from rfl, List.take_succ_cons,
      List.take_replicate, show min (2047 : Nat) 65534 = 2047 from rfl]]

/-- `searchLog` as a function of an already-computed scan. -/
theorem searchLog_eval (file : List Nat) (options : SearchOptionsM)
    (scan : ScanResult) (h : linesReverse file options.resumeFrom = .ok scan) :
    searchLog file options =
      (if (searchLoop (searchTextOf options.query) (options.maxResults.getD 100)
            scan.lines [] none).2.2 = true ∨ scan.completed = true
       then .ok ⟨(searchLoop (searchTextOf options.query)
              (options.maxResults.getD 100) scan.lines [] none).1,
            (searchLoop (searchTextOf options.query)
              (options.maxResults.getD 100) scan.lines [] none).2.1⟩
       else .error "searchLog does not terminate") := by
  have hb : ∀ (k : ScanResult → Except String SearchResult) (x : ScanResult),
      ((Except.ok x : Except String ScanResult) >>= k) = k x := fun _ _ => rfl
  simp only [searchLog, h, hb]
  rcases hr : searchLoop (searchTextOf options.query)
      (options.maxResults.getD 100) scan.lines [] none with ⟨entries, eo, broke⟩
  rfl

/-- Claim C2. -- The scan of the straddling file drops the first line's
leading byte: joining the emitted lines oldest-first with newlines does
not equal the file content truncated line-by-line to the cap — the
reconstruction starts with `a` where the file's first line starts with
`x` (the byte lost when the result of `prepend` was discarded). -/
theorem linesReverse_straddle_loses_bytes :
    linesReverse fileC2 none =
      .ok ⟨[⟨65536, [98]⟩, ⟨1, List.replicate 2048 97⟩], true⟩ ∧
    emittedReconstruction ⟨[⟨65536, [98]⟩, ⟨1, List.replicate 2048 97⟩], true⟩ ≠
      claimedReconstruction fileC2 := by
  refine ⟨linesReverse_fileC2, ?_⟩
  intro hcontra
  have h1 : (emittedReconstruction
      ⟨[⟨65536, [98]⟩, ⟨1, List.replicate 2048 97⟩], true⟩).head? = some 97 := rfl
  have h2 : (claimedReconstruction fileC2).head? = some 120 := by
    rw [claimedReconstruction_fileC2]
    rfl
  rw [hcontra, h2] at h1
  exact absurd h1 (by decide)

/-- Claim C3. -- The oldest line emitted for the straddling file carries
offset 1, but byte 0 of the file is `x`, not a newline: offset 1 is not
the true first byte of any line (the true line starts at offset 0), so
resuming from it re-reads a one-byte fragment of an already-served
line. -/
theorem linesReverse_straddle_wrong_offset :
    linesReverse fileC2 none =
      .ok ⟨[⟨65536, [98]⟩, ⟨1, List.replicate 2048 97⟩], true⟩ ∧
    ¬ isLineStart fileC2 1 ∧
    isLineStart fileC2 0 := by
  refine ⟨linesReverse_fileC2, ?_, Or.inl rfl⟩
  intro h
  rcases h with h | h
  · exact absurd h (by decide)
  · rw [show fileC2.getD (1 - 1) 0 = 120 from rfl] at h
    exact absurd h (by decide)

/-- Claim C4. -- On the straddling file the scan is exhausted (the whole
file was consumed; only 2 of the allowed 100 entries were produced), yet
`searchLog` reports `resumeFrom = 1`, which the handler treats as truthy
and turns into a continuation token although nothing older than the
already-served lines remains. -/
theorem searchLog_resumeFrom_despite_exhaustion :
    searchLog fileC2 ⟨none, none, none⟩ =
      .ok ⟨[[98], List.replicate 2048 97], some 1⟩ ∧
    ([[98], List.replicate 2048 97] : List (List Nat)).length <
      GLOBAL_MAX_RESULTS ∧
    (1 : Nat) ≠ 0 := by
  refine ⟨?_, by decide, by decide⟩
  rw [searchLog_eval fileC2 ⟨none, none, none⟩
      ⟨[⟨65536, [98]⟩, ⟨1, List.replicate 2048 97⟩], true⟩ linesReverse_fileC2]
  rfl
end LogServ
